import Mathlib

/-!
Shallow embedding of the bar-aggregation and signal pipeline of the
`ib_trading_platform` repository (src/trading_app/ib_client.py and
src/trading_app/trading_logic.py).

Modelling conventions:
* Python `float` prices are modelled as `ℚ`, Python `int` sizes/quantities
  as `ℤ`.
* Timestamps are modelled in whole seconds as `ℤ`.  Python subtracts two
  `datetime` values and reads the `.seconds` attribute of the resulting
  `timedelta`; for integer-second values that attribute equals the elapsed
  time taken modulo 86400 (the normalised seconds component of the
  timedelta, always in `[0, 86400)`), which on `ℤ` is `Int.emod _ 86400`.
* Fallible / optional results are `Option`; Python truthiness of the
  order id returned by `place_order` is modelled explicitly.
-/

/-- A market-data tick as consumed by `on_price_update` in
`ib_client.py` (`trade.price`, `trade.size`, and the wall-clock instant
`datetime.now()` at which it is processed). -/
structure Tick where
  price : ℚ
  size : ℤ
  timestamp : ℤ
  deriving Repr, DecidableEq

/-- An OHLCV bar, as stored in `self.current_bar` / `self.price_data`
in `ib_client.py` (the `open/high/low/close/volume/timestamp` keys of the
bar dictionary); `timestamp` is the bar's start time. -/
structure Bar where
  open_ : ℚ
  high : ℚ
  low : ℚ
  close : ℚ
  volume : ℤ
  timestamp : ℤ
  deriving Repr, DecidableEq

/-- The bar-aggregation state of `IBClient`: the mutable current bar
(`None` timestamp in `__init__` is modelled as `currentBar = none`) and
the sealed-bar history `self.price_data`. -/
structure AggState where
  currentBar : Option Bar
  priceData : List Bar
  deriving Repr, DecidableEq

/-- The initial aggregation state set up in `IBClient.__init__`:
no current bar, empty history. -/
def AggState.init : AggState := { currentBar := none, priceData := [] }

/-- Python's `timedelta.seconds` for an integer-second time difference
`d`: the normalised seconds component, i.e. `d` modulo 86400
(always in `[0, 86400)`, also for negative `d`). -/
def timedeltaSeconds (d : ℤ) : ℤ := d % 86400

/-- The bar opened from a tick in the boundary branch of
`on_price_update`: `open=high=low=close=price`, `volume=size`,
`timestamp=current_time`. -/
def openBar (t : Tick) : Bar :=
  { open_ := t.price, high := t.price, low := t.price, close := t.price
  , volume := t.size, timestamp := t.timestamp }

/-- The in-place update of the current bar in the `else` branch of
`on_price_update`: `high=max(high,price)`, `low=min(low,price)`,
`close=price`, `volume+=size`. -/
def updateBar (b : Bar) (t : Tick) : Bar :=
  { b with high := max b.high t.price
         , low := min b.low t.price
         , close := t.price
         , volume := b.volume + t.size }

/-- `on_price_update` from `ib_client.py` (lines 181-203), as a state
transition.  Returns the bar sealed by this tick (the one appended to
`self.price_data`), if any, together with the updated state.  The
boundary test is the source's
`self.current_bar['timestamp'] is None or
 (current_time - self.current_bar['timestamp']).seconds >= 60`. -/
def on_price_update (s : AggState) (t : Tick) : Option Bar × AggState :=
  match s.currentBar with
  | none =>
      (none, { currentBar := some (openBar t), priceData := s.priceData })
  | some cb =>
      if 60 ≤ timedeltaSeconds (t.timestamp - cb.timestamp) then
        (some cb, { currentBar := some (openBar t)
                  , priceData := s.priceData ++ [cb] })
      else
        (none, { currentBar := some (updateBar cb t)
               , priceData := s.priceData })

/-- Feeding a whole tick sequence through `on_price_update`. -/
def runAgg (s : AggState) (ticks : List Tick) : AggState :=
  ticks.foldl (fun st t => (on_price_update st t).2) s

/-- The typical price used by `calculate_signal` in `trading_logic.py`
(line 37): `(high + low + close) / 3`. -/
def typical_price (b : Bar) : ℚ := (b.high + b.low + b.close) / 3

/-- The last entry of pandas `rolling(window=n).mean()`: the arithmetic
mean of the final `n` list entries. -/
def rollingMeanLast (n : ℕ) (xs : List ℚ) : ℚ :=
  ((xs.drop (xs.length - n)).sum) / n

/-- The indicator values `calculate_signal` reads off the last dataframe
row (`SMA20`, `SMA50`, `ROC`). -/
structure IndicatorSnapshot where
  sma_short : ℚ
  sma_long : ℚ
  roc : ℚ
  deriving Repr, DecidableEq

/-- The indicator-computation part of `calculate_signal`
(`trading_logic.py` lines 31-44): the minimum-data guard
`len(price_data) < 50`, the typical price column, the two rolling means,
and the 10-period rate of change
`pct_change(periods=10) * 100` evaluated at the last row, i.e.
`(tp[-1] - tp[-11]) / tp[-11] * 100`. -/
def calculate_signal_indicators (price_data : List Bar) :
    Option IndicatorSnapshot :=
  if price_data.length < 50 then none
  else
    let tps := price_data.map typical_price
    some { sma_short := rollingMeanLast 20 tps
         , sma_long := rollingMeanLast 50 tps
         , roc := (tps.getD (tps.length - 1) 0 - tps.getD (tps.length - 11) 0)
                    / tps.getD (tps.length - 11) 0 * 100 }

/-- The discrete signal values returned by `calculate_signal`
(`'BUY'` / `'SELL'`; the Python `None` result is `Option.none`). -/
inductive Signal where
  | BUY
  | SELL
  deriving Repr, DecidableEq

/-- The signal-derivation part of `calculate_signal`
(`trading_logic.py` lines 47-53): BUY when `SMA20 > SMA50 and ROC > 0`,
SELL when `SMA20 < SMA50 and ROC < 0`, otherwise `None`. -/
def derive_signal (snap : IndicatorSnapshot) : Option Signal :=
  if snap.sma_short > snap.sma_long ∧ snap.roc > 0 then some Signal.BUY
  else if snap.sma_short < snap.sma_long ∧ snap.roc < 0 then some Signal.SELL
  else none

/-- The whole of `calculate_signal` (`trading_logic.py` lines 29-53):
indicator computation followed by signal derivation. -/
def calculate_signal (price_data : List Bar) : Option Signal :=
  match calculate_signal_indicators price_data with
  | none => none
  | some snap => derive_signal snap

/-- The mutable state of `TradingLogic` used by `execute_signal`
(`self.active`, `self.quantity`, `self.position`, `self.last_signal`). -/
structure TLState where
  active : Bool
  quantity : ℤ
  position : ℤ
  last_signal : Option Signal
  deriving Repr, DecidableEq

/-- The order intent handed to `ib_client.place_order` by
`execute_signal`: the configured quantity and the side. -/
structure OrderIntent where
  quantity : ℤ
  action : Signal
  deriving Repr, DecidableEq

/-- Python truthiness of the `order_id` value returned by `place_order`
(`None` on failure), as tested by `if order_id:` in `execute_signal`. -/
def orderIdTruthy : Option ℤ → Bool
  | none => false
  | some oid => oid != 0

/-- `execute_signal` from `trading_logic.py` (lines 55-80).  The result
of the external `place_order` call (its returned order id, `none` on
failure) is supplied as the oracle argument `orderResult`.  Returns the
new `TradingLogic` state together with the order intent passed to
`place_order` (if any): state is only mutated
(`position ± quantity`, `last_signal`) when the order id is truthy. -/
def execute_signal (s : TLState) (signal : Option Signal)
    (orderResult : Option ℤ) : TLState × Option OrderIntent :=
  if s.active = false then (s, none)
  else if signal = some Signal.BUY ∧ s.position ≤ 0 then
    ( if orderIdTruthy orderResult then
        { s with position := s.position + s.quantity
               , last_signal := signal }
      else s
    , some { quantity := s.quantity, action := Signal.BUY } )
  else if signal = some Signal.SELL ∧ 0 ≤ s.position then
    ( if orderIdTruthy orderResult then
        { s with position := s.position - s.quantity
               , last_signal := signal }
      else s
    , some { quantity := s.quantity, action := Signal.SELL } )
  else (s, none)

/-- Feeding a sequence of (signal, place_order-result) events through
`execute_signal`, keeping only the evolving state. -/
def runGate (s : TLState) (events : List (Option Signal × Option ℤ)) :
    TLState :=
  events.foldl (fun st e => (execute_signal st e.1 e.2).1) s

/-- The per-bar shape invariant stated by the spec's data model:
`low <= open,close <= high` and `volume >= 0`. -/
def barInv (b : Bar) : Prop :=
  b.low ≤ b.open_ ∧ b.open_ ≤ b.high ∧ b.low ≤ b.close ∧ b.close ≤ b.high ∧
    0 ≤ b.volume

/-- The aggregation-state invariant: every sealed bar of the history
and the current (unsealed) bar, when present, satisfy `barInv`. -/
def aggInv (s : AggState) : Prop :=
  (∀ b ∈ s.priceData, barInv b) ∧ (∀ b, s.currentBar = some b → barInv b)

/-- Ticks at consecutive one-second timestamps: `mkTicks t ps` carries
the (price, size) pairs of `ps` at timestamps `t, t+1, t+2, ...`. -/
def mkTicks : ℤ → List (ℚ × ℤ) → List Tick
  | _, [] => []
  | t, p :: ps => { price := p.1, size := p.2, timestamp := t } :: mkTicks (t + 1) ps

/-- A sample bar used by concrete witnesses. -/
def sampleBar : Bar :=
  { open_ := 100, high := 101, low := 99, close := 100, volume := 10, timestamp := 0 }

/-- A concrete active, flat gate state with quantity 5, used by the
concrete witnesses. -/
def flatGate : TLState :=
  { active := true, quantity := 5, position := 0, last_signal := none }

/-- A concrete BUY/SELL/SELL event sequence used by the C10 witness. -/
def sampleGateEvents : List (Option Signal × Option ℤ) :=
  [(some Signal.BUY, some 1), (some Signal.SELL, some 2),
   (some Signal.SELL, some 3)]

/-- A concrete three-tick sequence with non-negative sizes, used by the
C6 witness. -/
def sampleTicks : List Tick :=
  [⟨100, 2, 0⟩, ⟨105, 1, 10⟩, ⟨95, 3, 70⟩]

/-! ## Helper lemmas -/

theorem execute_signal_quantity (s : TLState) (sig : Option Signal)
    (r : Option ℤ) : (execute_signal s sig r).1.quantity = s.quantity := by
  unfold execute_signal
  split_ifs <;> rfl

theorem execute_signal_position_cases (s : TLState) (sig : Option Signal)
    (r : Option ℤ) (hq : 0 ≤ s.quantity)
    (h : s.position = -s.quantity ∨ s.position = 0 ∨ s.position = s.quantity) :
    (execute_signal s sig r).1.position = -s.quantity ∨
    (execute_signal s sig r).1.position = 0 ∨
    (execute_signal s sig r).1.position = s.quantity := by
  unfold execute_signal
  split_ifs with h1 h2 h3 h4 h5 <;> simp only <;> omega

theorem runGate_position_cases (evs : List (Option Signal × Option ℤ)) :
    ∀ s : TLState, 0 ≤ s.quantity →
    (s.position = -s.quantity ∨ s.position = 0 ∨ s.position = s.quantity) →
    ((runGate s evs).position = -s.quantity ∨ (runGate s evs).position = 0 ∨
      (runGate s evs).position = s.quantity) := by
  induction evs with
  | nil => intro s _ h; simpa [runGate] using h
  | cons e rest ih =>
      intro s hq h
      have hstep := execute_signal_position_cases s e.1 e.2 hq h
      have hqs := execute_signal_quantity s e.1 e.2
      have := ih (execute_signal s e.1 e.2).1 (by omega) (by omega)
      simpa [runGate, hqs] using this


theorem barInv_openBar (t : Tick) (h : 0 ≤ t.size) : barInv (openBar t) := by
  unfold barInv openBar
  exact ⟨le_refl _, le_refl _, le_refl _, le_refl _, h⟩

theorem barInv_updateBar (b : Bar) (t : Tick) (hb : barInv b)
    (h : 0 ≤ t.size) : barInv (updateBar b t) := by
  obtain ⟨h1, h2, h3, h4, h5⟩ := hb
  unfold barInv updateBar
  refine ⟨?_, ?_, ?_, ?_, ?_⟩ <;> simp only
  · exact le_trans (min_le_left _ _) h1
  · exact le_trans h2 (le_max_left _ _)
  · exact min_le_right _ _
  · exact le_max_right _ _
  · exact add_nonneg h5 h

theorem aggInv_init : aggInv AggState.init := by
  constructor
  · intro b hb
    simp [AggState.init] at hb
  · intro b hb
    simp [AggState.init] at hb

theorem aggInv_step (s : AggState) (t : Tick) (hs : aggInv s)
    (ht : 0 ≤ t.size) : aggInv (on_price_update s t).2 := by
  obtain ⟨hd, hc⟩ := hs
  cases hcb : s.currentBar with
  | none =>
      unfold on_price_update
      rw [hcb]
      refine ⟨hd, fun b hb => ?_⟩
      simp only [Option.some.injEq] at hb
      subst hb
      exact barInv_openBar t ht
  | some cb =>
      unfold on_price_update
      rw [hcb]
      dsimp only
      split_ifs with hcond
      · refine ⟨fun b hb => ?_, fun b hb => ?_⟩
        · rcases List.mem_append.mp hb with h | h
          · exact hd b h
          · simp only [List.mem_singleton] at h
            rw [h]
            exact hc cb hcb
        · simp only [Option.some.injEq] at hb
          subst hb
          exact barInv_openBar t ht
      · refine ⟨hd, fun b hb => ?_⟩
        simp only [Option.some.injEq] at hb
        subst hb
        exact barInv_updateBar cb t (hc cb hcb) ht

theorem aggInv_runAgg (ticks : List Tick) :
    ∀ s : AggState, aggInv s → (∀ t ∈ ticks, 0 ≤ t.size) →
    aggInv (runAgg s ticks) := by
  induction ticks with
  | nil =>
      intro s hs _
      simpa [runAgg] using hs
  | cons t rest ih =>
      intro s hs hts
      have h1 : aggInv (on_price_update s t).2 :=
        aggInv_step s t hs (hts t (List.mem_cons_self t rest))
      have h2 := ih (on_price_update s t).2 h1
        (fun u hu => hts u (List.mem_cons_of_mem t hu))
      simpa [runAgg] using h2

/-! ## Claim theorems -/

/-- C3: `derive_signal` returns BUY iff `sma_short > sma_long` and
`roc > 0`, returns SELL iff `sma_short < sma_long` and `roc < 0`,
returns none in every other case, and in particular a tie
(`sma_short = sma_long`) yields none for every `roc`. -/
theorem C3_derive_signal_spec (s : IndicatorSnapshot) :
    (derive_signal s = some Signal.BUY ↔ s.sma_long < s.sma_short ∧ 0 < s.roc) ∧
    (derive_signal s = some Signal.SELL ↔ s.sma_short < s.sma_long ∧ s.roc < 0) ∧
    (derive_signal s = none ↔
      ¬(s.sma_long < s.sma_short ∧ 0 < s.roc) ∧
      ¬(s.sma_short < s.sma_long ∧ s.roc < 0)) ∧
    (s.sma_short = s.sma_long → derive_signal s = none) := by
  unfold derive_signal
  split_ifs with h1 h2 <;> simp_all
  · exact ⟨fun h => (lt_asymm h1.1 h).elim, ne_of_gt h1.1⟩
  · exact ne_of_lt h2.1

/-- C3 witness: the tie example from the spec,
`sma_short = sma_long = 10`, `roc = 5`, yields none. -/
theorem C3_witness :
    derive_signal { sma_short := 10, sma_long := 10, roc := 5 } = none :=
  (C3_derive_signal_spec { sma_short := 10, sma_long := 10, roc := 5 }).2.2.2 rfl

/-- C4: in the active gate, an order intent is emitted for a BUY signal
only when `position ≤ 0` and for a SELL signal only when
`position ≥ 0`; and when the order is executed (a truthy order id is
returned), the position is updated by `+ quantity` for BUY and
`- quantity` for SELL. -/
theorem C4_execute_signal_gate (s : TLState) (sig : Option Signal)
    (r : Option ℤ) :
    ((execute_signal s sig r).2.isSome = true → sig = some Signal.BUY →
      s.position ≤ 0) ∧
    ((execute_signal s sig r).2.isSome = true → sig = some Signal.SELL →
      0 ≤ s.position) ∧
    (s.active = true → sig = some Signal.BUY → s.position ≤ 0 →
      orderIdTruthy r = true →
      (execute_signal s sig r).1.position = s.position + s.quantity ∧
      (execute_signal s sig r).2 =
        some { quantity := s.quantity, action := Signal.BUY }) ∧
    (s.active = true → sig = some Signal.SELL → 0 ≤ s.position →
      orderIdTruthy r = true →
      (execute_signal s sig r).1.position = s.position - s.quantity ∧
      (execute_signal s sig r).2 =
        some { quantity := s.quantity, action := Signal.SELL }) := by
  unfold execute_signal
  split_ifs with h1 h2 h3 <;> simp_all

/-- C4 witness: from a flat position with quantity 5, an executed BUY
emits the intent and moves the position to 5. -/
theorem C4_witness :
    (execute_signal flatGate (some Signal.BUY) (some 1)).1.position
      = 0 + 5 ∧
    (execute_signal flatGate (some Signal.BUY) (some 1)).2
      = some { quantity := 5, action := Signal.BUY } :=
  (C4_execute_signal_gate flatGate (some Signal.BUY) (some 1)).2.2.1
    rfl rfl (by decide) (by decide)

/-- C9: when `place_order` reports failure (returns no order id,
modelled as `orderResult = none`), `execute_signal` leaves the whole
`TradingLogic` state - in particular `position` and `last_signal` -
exactly as it was. -/
theorem C9_no_fill_state_unchanged (s : TLState) (sig : Option Signal) :
    (execute_signal s sig none).1 = s := by
  unfold execute_signal orderIdTruthy
  split_ifs <;> simp_all

/-- C5: the indicator evaluation returns none iff the history has fewer
than 50 bars; with exactly 49 bars it returns none, with exactly 50 (or
more) it returns a snapshot; the guard is an ordinary none result of
the total function, not an error. -/
theorem C5_minimum_data_guard :
    (∀ l : List Bar, calculate_signal_indicators l = none ↔ l.length < 50) ∧
    (∀ l : List Bar, l.length = 49 → calculate_signal_indicators l = none) ∧
    (∀ l : List Bar, 50 ≤ l.length →
      (calculate_signal_indicators l).isSome = true) := by
  refine ⟨fun l => ?_, fun l h => ?_, fun l h => ?_⟩ <;>
    · unfold calculate_signal_indicators
      split_ifs with hl <;> simp_all <;> omega

/-- C5 witness: a concrete 49-bar history yields none and a concrete
50-bar history yields a snapshot. -/
theorem C5_witness :
    calculate_signal_indicators (List.replicate 49 sampleBar) = none ∧
    (calculate_signal_indicators (List.replicate 50 sampleBar)).isSome
      = true :=
  ⟨C5_minimum_data_guard.2.1 (List.replicate 49 sampleBar) (by simp),
   C5_minimum_data_guard.2.2 (List.replicate 50 sampleBar) (by simp)⟩

/-- C10: starting flat with a fixed non-negative configured quantity,
every sequence of `execute_signal` calls keeps the position in
`{-quantity, 0, +quantity}`: exposure never exceeds one fixed-quantity
unit in either direction. -/
theorem C10_position_bounded (s : TLState)
    (evs : List (Option Signal × Option ℤ))
    (hq : 0 ≤ s.quantity) (h0 : s.position = 0) :
    (runGate s evs).position = -s.quantity ∨
    (runGate s evs).position = 0 ∨
    (runGate s evs).position = s.quantity :=
  runGate_position_cases evs s hq (Or.inr (Or.inl h0))

/-- C10 witness: a concrete BUY/SELL/SELL run from flat with quantity 5
stays inside `{-5, 0, 5}`. -/
theorem C10_witness :
    (0 : ℤ) ≤ 5 ∧
    ((runGate flatGate sampleGateEvents).position = -5 ∨
     (runGate flatGate sampleGateEvents).position = 0 ∨
     (runGate flatGate sampleGateEvents).position = 5) :=
  ⟨by decide, C10_position_bounded flatGate sampleGateEvents (by decide) rfl⟩

/-- C6: throughout any run of the aggregator from its initial state -
i.e. after any number `n` of ingested ticks - every sealed bar in the
history and the current (unsealed) bar satisfy
`low ≤ open ≤ high`, `low ≤ close ≤ high`, and (given non-negative tick
sizes) `volume ≥ 0`. -/
theorem C6_bar_invariant (ticks : List Tick)
    (hs : ∀ t ∈ ticks, 0 ≤ t.size) (n : ℕ) :
    aggInv (runAgg AggState.init (ticks.take n)) :=
  aggInv_runAgg (ticks.take n) AggState.init aggInv_init
    (fun t ht => hs t (List.take_subset n ticks ht))

/-- C6 witness: a concrete three-tick run (with non-negative sizes,
checked by `decide` inside the proof) keeps the invariant. -/
theorem C6_witness :
    aggInv (runAgg AggState.init (sampleTicks.take 3)) :=
  C6_bar_invariant sampleTicks (by decide) 3

/-- C1: evaluation at the failing input for the boundary condition.
The source tests `(current_time - start).seconds >= 60`; `.seconds` is
the day-normalised seconds component of the timedelta, so a tick
arriving exactly 86400 seconds (one day) after the current bar's start
- far more than the 60-second interval - does NOT seal the bar: the
code updates the 0-started bar in place and seals nothing, although the
claim requires sealing on every tick at least 60 seconds after the
start. -/
theorem C1_boundary_day_wraparound :
    ((86400 : ℤ) - 0 ≥ 60) ∧
    on_price_update ⟨some (openBar ⟨100, 1, 0⟩), []⟩ ⟨200, 1, 86400⟩
      = (none, ⟨some ⟨100, 200, 100, 200, 2, 0⟩, []⟩) := by
  constructor
  · decide
  · decide

/-- C7 counterexample: the tick sequence with timestamps 0 and 130 is
strictly increasing, yet the run seals exactly 1 bar while
`floor((last - first) / interval) = floor(130 / 60) = 2`. -/
theorem C7_counterexample :
    ((0 : ℤ) < 130) ∧
    (runAgg AggState.init [⟨100, 1, 0⟩, ⟨101, 1, 130⟩]).priceData.length
      = 1 ∧
    ((130 : ℤ) - 0) / 60 = 2 := by
  refine ⟨by decide, ?_, by decide⟩
  decide

theorem runAgg_mkTicks_aux (ps : List (ℚ × ℤ)) :
    ∀ (a : ℕ) (t : ℤ) (cb : Bar) (hist : List Bar),
      1 ≤ a → a ≤ 60 → cb.timestamp = t - a →
      (runAgg ⟨some cb, hist⟩ (mkTicks t ps)).priceData.length
        = hist.length + (ps.length + a - 1) / 60 := by
  induction ps with
  | nil =>
      intro a t cb hist h1 h2 _
      simp only [mkTicks, runAgg, List.foldl_nil, List.length_nil]
      omega
  | cons p ps ih =>
      intro a t cb hist h1 h2 hts
      have hdelta : t - cb.timestamp = (a : ℤ) := by omega
      have hmod : timedeltaSeconds ((a : ℤ)) = (a : ℤ) := by
        unfold timedeltaSeconds
        rw [Int.emod_eq_of_lt] <;> omega
      have hstep : runAgg ⟨some cb, hist⟩ (mkTicks t (p :: ps))
          = runAgg (on_price_update ⟨some cb, hist⟩ ⟨p.1, p.2, t⟩).2
              (mkTicks (t + 1) ps) := rfl
      by_cases ha : a = 60
      · have hcond : 60 ≤ timedeltaSeconds (t - cb.timestamp) := by
          rw [hdelta, hmod]; omega
        have hopu : (on_price_update ⟨some cb, hist⟩ ⟨p.1, p.2, t⟩).2
            = ⟨some (openBar ⟨p.1, p.2, t⟩), hist ++ [cb]⟩ := by
          unfold on_price_update
          simp only
          rw [if_pos hcond]
        rw [hstep, hopu]
        have := ih 1 (t + 1) (openBar ⟨p.1, p.2, t⟩) (hist ++ [cb])
          (by omega) (by omega) (by simp [openBar])
        rw [this]
        simp only [List.length_append, List.length_cons, List.length_nil]
        omega
      · have hcond : ¬ 60 ≤ timedeltaSeconds (t - cb.timestamp) := by
          rw [hdelta, hmod]
          omega
        have hopu : (on_price_update ⟨some cb, hist⟩ ⟨p.1, p.2, t⟩).2
            = ⟨some (updateBar cb ⟨p.1, p.2, t⟩), hist⟩ := by
          unfold on_price_update
          simp only
          rw [if_neg hcond]
        rw [hstep, hopu]
        have := ih (a + 1) (t + 1) (updateBar cb ⟨p.1, p.2, t⟩) hist
          (by omega) (by omega) (by simp [updateBar]; omega)
        rw [this]
        simp only [List.length_cons]
        omega

theorem mkTicks_strict_mono (ps : List (ℚ × ℤ)) :
    ∀ t : ℤ, List.Chain' (fun a b : Tick => a.timestamp < b.timestamp)
      (mkTicks t ps) := by
  induction ps with
  | nil => intro t; simp [mkTicks]
  | cons p ps ih =>
      intro t
      cases ps with
      | nil => simp [mkTicks]
      | cons q qs =>
          have h2 := ih (t + 1)
          simp only [mkTicks] at h2 ⊢
          exact List.Chain'.cons (show (t : ℤ) < t + 1 by omega) h2

/-- C7 amended: restricted to tick sequences at one-second spacing
(each timestamp exactly one more than the previous, as in the spec's
end-to-end scenario).  Such a sequence has strictly increasing
timestamps, its last timestamp minus its first is `ps.length`, and the
run seals exactly `floor((last - first) / 60)` bars.  (The original
claim, for arbitrary strictly increasing timestamps, is refuted by
`C7_counterexample`.) -/
theorem C7_sealed_count_one_second_ticks (t0 : ℤ) (p : ℚ × ℤ)
    (ps : List (ℚ × ℤ)) :
    List.Chain' (fun a b : Tick => a.timestamp < b.timestamp)
      (mkTicks t0 (p :: ps)) ∧
    (runAgg AggState.init (mkTicks t0 (p :: ps))).priceData.length
      = ps.length / 60 := by
  refine ⟨mkTicks_strict_mono (p :: ps) t0, ?_⟩
  have hstep : runAgg AggState.init (mkTicks t0 (p :: ps))
      = runAgg ⟨some (openBar ⟨p.1, p.2, t0⟩), []⟩ (mkTicks (t0 + 1) ps) :=
    rfl
  rw [hstep]
  have := runAgg_mkTicks_aux ps 1 (t0 + 1) (openBar ⟨p.1, p.2, t0⟩) []
    (by omega) (by omega) (by simp [openBar])
  rw [this]
  simp

theorem rollingMeanLast_eq_reverse_take (n : ℕ) (xs : List ℚ) :
    rollingMeanLast n xs = (xs.reverse.take n).sum / n := by
  unfold rollingMeanLast
  rw [List.take_reverse, List.sum_reverse]

theorem getD_reverse (xs : List ℚ) (k : ℕ) (h : k < xs.length) :
    xs.reverse.getD k 0 = xs.getD (xs.length - 1 - k) 0 := by
  rw [List.getD_eq_getElem?_getD, List.getD_eq_getElem?_getD,
    List.getElem?_reverse h]

/-- C2: for every history of at least 50 bars, the indicator evaluation
produces a snapshot whose `sma_short` is the arithmetic mean of the
typical prices `(high + low + close) / 3` of the 20 most recent bars,
whose `sma_long` is the mean over the 50 most recent bars, and whose
`roc` is `(tp[-1] - tp[-11]) / tp[-11] * 100`, where `tp[-1]` and
`tp[-11]` are the typical prices of the most recent bar and of the bar
10 positions earlier (here expressed via the reversed - most recent
first - typical-price sequence, so only bars up to the current index
are used). -/
theorem C2_indicator_formulas (l : List Bar) (h : 50 ≤ l.length) :
    calculate_signal_indicators l =
      some { sma_short := ((l.map typical_price).reverse.take 20).sum / 20
           , sma_long := ((l.map typical_price).reverse.take 50).sum / 50
           , roc := ((l.map typical_price).reverse.getD 0 0 -
                      (l.map typical_price).reverse.getD 10 0) /
                     (l.map typical_price).reverse.getD 10 0 * 100 } := by
  have hlen : (l.map typical_price).length = l.length := List.length_map l _
  unfold calculate_signal_indicators
  rw [if_neg (by omega)]
  simp only
  have h0 : (l.map typical_price).reverse.getD 0 0
      = (l.map typical_price).getD ((l.map typical_price).length - 1) 0 := by
    rw [getD_reverse _ 0 (by omega), Nat.sub_zero]
  have h10 : (l.map typical_price).reverse.getD 10 0
      = (l.map typical_price).getD ((l.map typical_price).length - 11) 0 := by
    rw [getD_reverse _ 10 (by omega),
      show (l.map typical_price).length - 1 - 10
        = (l.map typical_price).length - 11 from by omega]
  rw [rollingMeanLast_eq_reverse_take, rollingMeanLast_eq_reverse_take,
    h0, h10]
  norm_num

/-- C2 witness: the formulas instantiated at a concrete 50-bar
history. -/
theorem C2_witness :
    50 ≤ (List.replicate 50 sampleBar).length ∧
    calculate_signal_indicators (List.replicate 50 sampleBar) =
      some { sma_short :=
               (((List.replicate 50 sampleBar).map typical_price).reverse.take
                 20).sum / 20
           , sma_long :=
               (((List.replicate 50 sampleBar).map typical_price).reverse.take
                 50).sum / 50
           , roc :=
               (((List.replicate 50 sampleBar).map typical_price).reverse.getD
                   0 0 -
                 ((List.replicate 50 sampleBar).map
                   typical_price).reverse.getD 10 0) /
                 ((List.replicate 50 sampleBar).map
                   typical_price).reverse.getD 10 0 * 100 } :=
  ⟨by simp, C2_indicator_formulas (List.replicate 50 sampleBar) (by simp)⟩

/-- C8 counterexample: a tick that is out of order (timestamp 9 before
the current bar's start 10) and has negative price and negative size is
processed silently - here it even passes the day-wrapped boundary test
and seals the bar, opening a new current bar from the invalid values -
rather than producing any InvalidInput condition. -/
theorem C8_counterexample :
    ((9 : ℤ) < 10 ∧ (-5 : ℚ) ≤ 0 ∧ (-2 : ℤ) ≤ 0) ∧
    on_price_update ⟨some (openBar ⟨100, 1, 10⟩), []⟩ ⟨-5, -2, 9⟩
      = (some (openBar ⟨100, 1, 10⟩),
         ⟨some (openBar ⟨-5, -2, 9⟩), [openBar ⟨100, 1, 10⟩]⟩) := by
  constructor
  · decide
  · decide

/-- C8 amended: the aggregator performs no input validation at all:
every tick - including out-of-order ticks and ticks with non-positive
price or size - is silently absorbed by the ordinary open/seal/update
rules.  After any ingest there is always a current bar, its close is
the (possibly invalid) tick price, and the (possibly non-positive) tick
size has been taken as, or added into, its volume; no InvalidInput
outcome exists. -/
theorem C8_no_input_validation (s : AggState) (t : Tick) :
    ∃ b : Bar, (on_price_update s t).2.currentBar = some b ∧
      b.close = t.price ∧
      (b.volume = t.size ∨
        ∃ cb : Bar, s.currentBar = some cb ∧ b.volume = cb.volume + t.size) := by
  cases hcb : s.currentBar with
  | none =>
      unfold on_price_update
      rw [hcb]
      exact ⟨openBar t, rfl, rfl, Or.inl rfl⟩
  | some cb =>
      unfold on_price_update
      rw [hcb]
      dsimp only
      split_ifs with h
      · exact ⟨openBar t, rfl, rfl, Or.inl rfl⟩
      · exact ⟨updateBar cb t, rfl, rfl, Or.inr ⟨cb, rfl, rfl⟩⟩
